import Mathlib

/-!
Verification development for the TSVC auto-vectorization analysis pipeline
(`analyze_tsvc_vectorization.py`) and the checksum-parity comparator
(`compare_tsvc_checksums.py`).

The Python sources are shallowly embedded: dictionaries become association
lists (insertion-ordered, with the unique-key guarantee of CPython `dict`
carried as a hypothesis where a proof needs it), regular-expression searches
over the disassembly text become explicit character-list scanners
implementing exactly the fixed patterns of the source, JSON scalar values
become the inductive `PyVal`, and the worklist loop of
`_expand_btext_reachable` becomes a structurally recursive function with an
explicit fuel bound that is proved sufficient.  Floating-point division for
the coverage percentage is modelled over `Rat`.  String helpers (`strip`,
`lower`, `startswith`) are re-implemented on character lists so that every
definition reduces inside the kernel.
-/

/-- ASCII word character, the `\w` class used by the word-boundary `\b`
assertions of the disassembly regexes (the disassembly text is ASCII). -/
def is_word_char (c : Char) : Bool :=
  c.isAlpha || c.isDigit || c == '_'

/-- A `\b` word boundary holds before a word character iff the preceding
character (if any) is not a word character. -/
def is_boundary_before (prev : Option Char) : Bool :=
  match prev with
  | none => true
  | some c => !is_word_char c

/-- Python `str.lower()` restricted to ASCII case mapping. -/
def py_lower (s : String) : String :=
  String.mk (s.data.map Char.toLower)

/-- Trailing-whitespace stripper on character lists (Python `str.rstrip()`). -/
def rstrip_chars (l : List Char) : List Char :=
  (l.reverse.dropWhile Char.isWhitespace).reverse

/-- Python `str.strip()`: drop leading and trailing whitespace. -/
def py_strip (s : String) : String :=
  String.mk (rstrip_chars (s.data.dropWhile Char.isWhitespace))

/-- Python `str.startswith(p)`. -/
def str_starts_with (s p : String) : Bool :=
  p.data.isPrefixOf s.data

/-- Substring containment on character lists (Python `needle in text`). -/
def contains_chars (needle : List Char) : List Char → Bool
  | [] => needle.isEmpty
  | c :: cs => needle.isPrefixOf (c :: cs) || contains_chars needle cs

/-- Python `needle in text` on strings. -/
def str_contains (text needle : String) : Bool :=
  contains_chars needle.data text.data

/-- Scalar JSON values as they appear in remark rows (`vnone` for an absent
key or JSON null).  Floats are not modelled: no verified property touches a
float-valued remark field. -/
inductive PyVal where
  | vbool (b : Bool)
  | vstr (s : String)
  | vint (n : Int)
  | vnone
deriving DecidableEq

/-- Embeds `_to_bool(value, default)`: booleans pass through, a string is
stripped, lowercased and matched against the truthy/falsy vocabularies,
anything else yields the default. -/
def to_bool (value : PyVal) (default : Option Bool) : Option Bool :=
  match value with
  | PyVal.vbool b => some b
  | PyVal.vstr s =>
      let text := py_lower (py_strip s)
      if text = "1" ∨ text = "true" ∨ text = "yes" ∨ text = "on" then some true
      else if text = "0" ∨ text = "false" ∨ text = "no" ∨ text = "off" then
        some false
      else default
  | _ => default

/-- Case-insensitive literal match: `match_ci pat l` consumes the lowercase
pattern `pat` from the front of `l` (comparing lowercased characters) and
returns the remaining characters on success. -/
def match_ci : List Char → List Char → Option (List Char)
  | [], rest => some rest
  | _ :: _, [] => none
  | p :: ps, c :: cs => if c.toLower == p then match_ci ps cs else none

/-- Trailing `\b` after a word character: the next character, if any, is not
a word character. -/
def ends_word_boundary : List Char → Bool
  | [] => true
  | c :: _ => !is_word_char c

/-- Scanner for `(?i)\bbstart\.(?:alt1|alt2)\b` over a character list,
tracking the previous character for the leading word boundary. -/
def scan_bstart (alt1 alt2 : List Char) : Option Char → List Char → Bool
  | _, [] => false
  | prev, c :: cs =>
      (is_boundary_before prev &&
        (match match_ci (alt1) (c :: cs) with
         | some rest => ends_word_boundary rest
         | none => false)
       ||
       is_boundary_before prev &&
        (match match_ci (alt2) (c :: cs) with
         | some rest => ends_word_boundary rest
         | none => false))
      || scan_bstart alt1 alt2 (some c) cs

/-- Embeds `_RE_BSTART_MEM.search`: `(?i)\bbstart\.(?:mseq|mpar)\b`. -/
def has_bstart_mem (s : String) : Bool :=
  scan_bstart "bstart.mseq".data "bstart.mpar".data none s.data

/-- Embeds `_RE_BSTART_TILE.search`: `(?i)\bbstart\.(?:vseq|vpar)\b`. -/
def has_bstart_tile (s : String) : Bool :=
  scan_bstart "bstart.vseq".data "bstart.vpar".data none s.data

/-- Match of `(?i)v\.[a-z0-9_]+` anchored at the current position (the
leading boundary is checked by the scanner; one tail character suffices for
existence of a match of the `+`-repetition). -/
def vec_insn_here : List Char → Bool
  | v :: dot :: d :: _ => (v.toLower == 'v') && (dot == '.') && is_word_char d
  | _ => false

/-- Scanner for `(?i)\bv\.[a-z0-9_]+`. -/
def scan_vec_insn : Option Char → List Char → Bool
  | _, [] => false
  | prev, c :: cs =>
      (is_boundary_before prev && vec_insn_here (c :: cs))
      || scan_vec_insn (some c) cs

/-- Embeds `_RE_VEC_INSN.search`. -/
def has_vec_insn (s : String) : Bool :=
  scan_vec_insn none s.data

/-- Character class of a `b.text` transfer target: `[A-Za-z0-9_.$]`. -/
def is_btext_target_char (c : Char) : Bool :=
  c.isAlpha || c.isDigit || c == '_' || c == '.' || c == '$'

/-- Match of `(?i)\bb\.text\s+([A-Za-z0-9_.$]+)` anchored at the current
position: the literal, at least one whitespace, then a maximal nonempty run
of target characters.  Returns the captured target and the remaining
characters after it (where `finditer` resumes). -/
def match_btext_at (l : List Char) : Option (List Char × List Char) :=
  match match_ci "b.text".data l with
  | none => none
  | some rest =>
      if (rest.takeWhile Char.isWhitespace).isEmpty then none
      else
        let after_ws := rest.dropWhile Char.isWhitespace
        let tgt := after_ws.takeWhile is_btext_target_char
        if tgt.isEmpty then none
        else some (tgt, after_ws.drop tgt.length)

/-- Fuel-indexed scanner for `finditer` of the `b.text` pattern: advance one
character on no match, resume after the captured target on a match.  Every
step consumes at least one character, so fuel equal to the list length is
always sufficient (`btext_scan_fuel_stable` below). -/
def btext_scan_aux : Nat → Option Char → List Char → List (List Char)
  | 0, _, _ => []
  | _ + 1, _, [] => []
  | fuel + 1, prev, c :: cs =>
      if is_boundary_before prev then
        match match_btext_at (c :: cs) with
        | some (tgt, rest) => tgt :: btext_scan_aux fuel tgt.getLast? rest
        | none => btext_scan_aux fuel (some c) cs
      else btext_scan_aux fuel (some c) cs

/-- Embeds `_RE_BTEXT_TARGET.finditer`: all (non-overlapping) captured
`b.text` transfer targets, left to right. -/
def btext_targets (s : String) : List String :=
  (btext_scan_aux s.data.length none s.data).map String.mk

/-- Fixed bucket taxonomy `_GAP_BUCKET_ORDER`. -/
def gap_bucket_order : List String :=
  ["loop_removed_before_pass", "unsupported_value_expression",
   "non_affine_address", "inner_control_flow", "reductions_live_out",
   "no_store_loops", "other"]

/-- Fixed bucket-to-action table `_GAP_BUCKET_ACTIONS`. -/
def gap_bucket_actions : List (String × String) :=
  [("loop_removed_before_pass", "adjust_pass_pipeline_or_loop_preservation"),
   ("unsupported_value_expression", "extend_emit_value_semantics"),
   ("non_affine_address", "extend_address_lowering_or_fallback"),
   ("inner_control_flow", "if_convert_or_predicate_lowering"),
   ("reductions_live_out", "add_reduction_and_liveout_lowering"),
   ("no_store_loops", "support_reduction_only_vector_loops"),
   ("other", "manual_triage")]

/-- Embeds `_map_reason_to_gap_bucket`: the ordered first-match rule chain of
the source, evaluated top to bottom. -/
def map_reason_to_gap_bucket (reason : String) : String :=
  let text := py_strip reason
  if text = "" then "other"
  else if text = "no_loop_candidate" ∨ text = "no_tripcount_expr" ∨
      text = "tripcount_expand_failed" then "loop_removed_before_pass"
  else if str_starts_with text "unsupported_value_expr:" then
    "unsupported_value_expression"
  else if str_contains text "non_affine" ∨ text = "unsupported_store_stride" then
    "non_affine_address"
  else if text = "inner_control_flow" ∨ text = "complex_control_flow" ∨
      text = "not_innermost_loop" ∨ text = "not_loop_simplify" ∨
      text = "preheader_not_simple_branch" ∨
      text = "unsupported_inner_backedge" ∨
      text = "unsupported_branch_condition" ∨
      text = "unsupported_branch_predicate" ∨
      text = "unsupported_branch_fcmp_condition" ∨
      text = "unsupported_terminator" then "inner_control_flow"
  else if text = "value_live_out" ∨ text = "unsupported_reduction_kind" ∨
      text = "unsupported_reduction_init" ∨
      text = "unsupported_reduction_value" then "reductions_live_out"
  else if text = "no_store_in_loop" then "no_store_loops"
  else "other"

/-- One `collections.Counter` update step on the insertion-ordered item list:
bump an existing key's count in place, else append the new key with count 1
(CPython dicts preserve insertion order). -/
def insert_count : List (String × Nat) → String → List (String × Nat)
  | [], s => [(s, 1)]
  | (k, n) :: rest, s =>
      if k = s then (k, n + 1) :: rest else (k, n) :: insert_count rest s

/-- Items of `collections.Counter(l)` in key-insertion order. -/
def counter_items_aux (acc : List (String × Nat)) : List String → List (String × Nat)
  | [] => acc
  | s :: rest => counter_items_aux (insert_count acc s) rest

/-- Items of `collections.Counter(l)` in key-insertion order. -/
def counter_items (l : List String) : List (String × Nat) :=
  counter_items_aux [] l

/-- Head of `Counter.most_common(1)`: `most_common` stable-sorts the
insertion-ordered items by descending count, so its head is the first item
(in insertion order) holding the maximal count — computed here as a left
fold that replaces the best only on a strictly greater count. -/
def most_common_head (l : List String) : Option (String × Nat) :=
  match counter_items l with
  | [] => none
  | p :: rest => some (rest.foldl (fun best q => if best.2 < q.2 then q else best) p)

/-- The reason string of `reason_counts.most_common(1)[0][0]`. -/
def most_common_reason (l : List String) : Option String :=
  (most_common_head l).map (fun p => p.1)

/-- Embeds `_lookup_function_name`: the bare kernel name, else the single
leading-underscore variant, else nothing. -/
def lookup_function_name (functions : List (String × String)) (kernel : String) :
    Option String :=
  if (functions.lookup kernel).isSome then some kernel
  else if (functions.lookup ("_" ++ kernel)).isSome then some ("_" ++ kernel)
  else none

/-- One fuel unit per worklist pop for the `_expand_btext_reachable` loop:
popping an already-visited or unresolved name consumes one unit and one
worklist entry; visiting a new function consumes one unit, removes the
function from the unvisited set and pushes at most its `b.text` targets.
`expand_fuel` below is proved sufficient (`claim9`…). -/
def expand_budget (functions : List (String × String)) (visited : List String) : Nat :=
  ((functions.filter (fun p => p.1 ∉ visited)).map
    (fun p => 1 + (btext_targets p.2).length)).sum

/-- Fuel that always suffices for the worklist loop. -/
def expand_fuel (functions : List (String × String)) : Nat :=
  1 + expand_budget functions []

/-- The worklist loop of `_expand_btext_reachable`.  The worklist is the
Python list with its top (the `pop()` end) at the head, so the sequential
`append` of the matched targets becomes a `foldl` of conses; `visited` and
the accumulated `(name, body)` chunks mirror the source exactly.  Returns
`none` only on fuel exhaustion, which `claim9…` proves unreachable from
`expand_fuel`. -/
def expand_aux (functions : List (String × String)) :
    Nat → List String → List String → List (String × String) →
    Option (List (String × String))
  | _, [], _, chunks => some chunks
  | 0, _ :: _, _, _ => none
  | fuel + 1, name :: rest, visited, chunks =>
      if name ∈ visited then expand_aux functions fuel rest visited chunks
      else
        match functions.lookup name with
        | none => expand_aux functions fuel rest visited chunks
        | some body =>
            let visited' := name :: visited
            let pushed := (btext_targets body).filter
              (fun t => t ∉ visited' && (functions.lookup t).isSome)
            expand_aux functions fuel (pushed.foldl (fun wl t => t :: wl) rest)
              visited' (chunks ++ [(name, body)])

/-- The visited `(name, body)` chunks of `_expand_btext_reachable`, in visit
order. -/
def expand_reachable_chunks (functions : List (String × String)) (root : String) :
    List (String × String) :=
  (expand_aux functions (expand_fuel functions) [root] [] []).getD []

/-- Python `"\n".join` on character lists. -/
def join_chunks : List (List Char) → List Char
  | [] => []
  | [c] => c
  | c :: c2 :: cs => c ++ '\n' :: join_chunks (c2 :: cs)

/-- Embeds `_expand_btext_reachable`'s return value:
`"\n".join(chunks).rstrip() + "\n"`. -/
def expand_btext_reachable (functions : List (String × String)) (root : String) :
    String :=
  String.mk (rstrip_chars
    (join_chunks ((expand_reachable_chunks functions root).map
      (fun p => p.2.data))) ++ ['\n'])

/-- Per-kernel disassembly evidence (the `asm_by_kernel` record of the
source, minus the audit copy of the closure text). -/
structure AsmEvidence where
  resolved_symbol : Option String
  has_mem_block : Bool
  has_tile_block : Bool
  has_vec_insn : Bool
  has_btext : Bool
deriving DecidableEq

/-- Embeds the per-kernel evidence loop of `main` (lines 214–238): an
unresolved kernel gets all-false flags; a resolved one gets the two header
flags and the `b.text` flag from the root body and the vector-instruction
flag from the `b.text`-reachable closure text. -/
def compute_asm_evidence (functions : List (String × String)) (kernel : String) :
    AsmEvidence :=
  match lookup_function_name functions kernel with
  | none => ⟨none, false, false, false, false⟩
  | some resolved =>
      let root_body := (functions.lookup resolved).getD ""
      let body := expand_btext_reachable functions resolved
      ⟨some resolved, has_bstart_mem root_body, has_bstart_tile root_body,
        has_vec_insn body, !(btext_targets root_body).isEmpty⟩

/-- One parsed remark row.  Fields are `Option`s (or `PyVal`) because the
source reads them with `dict.get` and per-site defaults.  Metadata fields
that no verified property references (`lane_count`, `group_count`,
`force_scalar_lane`, `has_recurrence`, `header_kind`, `tripcount_source`,
`address_model`) are pass-through copies in the source and are not
modelled. -/
structure Remark where
  function : String
  status : Option String := none
  reason : Option String := none
  selected_mode : Option String := none
  configured_mode : Option String := none
  touches_memory : PyVal := PyVal.vnone
deriving DecidableEq

/-- Rows linked to a kernel: the `by_function` groups for the bare name and
the leading-underscore variant, in that order (grouping keys are stripped
function names; empty names are skipped). -/
def linked_rows (rows : List Remark) (kernel : String) : List Remark :=
  (rows.filter (fun r => py_strip r.function ≠ "" && py_strip r.function = kernel))
    ++ (rows.filter (fun r =>
      py_strip r.function ≠ "" && py_strip r.function = "_" ++ kernel))

/-- One per-kernel classification row (the fields of the source's
`kernel_rows` entries that verified properties reference). -/
structure KernelRow where
  kernel : String
  resolved_symbol : Option String
  status : String
  reason : String
  bucket : String
  configured_mode : String
  selected_mode : String
  touches_memory : Option Bool
  loop_rows_total : Nat
  lowered_loops : Nat
  reject_loops : Nat
  asm_has_any_vector_header : Bool
  asm_has_mem_header : Bool
  asm_has_tile_header : Bool
  asm_header_expected_kind : String
  asm_header_matches_policy : Bool
  asm_has_btext : Bool
  asm_has_vec_insn : Bool
  strict_vectorized : Bool
deriving DecidableEq

/-- The remark-choice step of the classification loop (lines 260–281): the
chosen remark together with the derived status, reason, selected mode and
configured mode. -/
def classify_chosen (mode : String) (rows : List Remark) (kernel : String) :
    Option Remark × String × String × String × String :=
  let linked := linked_rows rows kernel
  let lowered_list := linked.filter (fun r => r.status.getD "" = "lowered")
  let reject_list := linked.filter (fun r => r.status.getD "" = "reject")
  match lowered_list with
  | c0 :: _ =>
      let chosen := (lowered_list.find? (fun r =>
        str_starts_with (r.reason.getD "") "lowered_vblock")).getD c0
      (some chosen, "lowered", chosen.reason.getD "lowered_vblock",
        chosen.selected_mode.getD "mseq", chosen.configured_mode.getD mode)
  | [] =>
      match reject_list with
      | c0 :: _ =>
          ((some c0), "reject",
            (most_common_reason (reject_list.map
              (fun r => r.reason.getD ""))).getD "reject_unknown",
            c0.selected_mode.getD "mseq", c0.configured_mode.getD mode)
      | [] => (none, "reject", "no_remarks_for_kernel", "mseq", mode)

/-- Embeds one iteration of the classification loop of `main`
(lines 251–338) for a single kernel. -/
def classify_kernel (mode : String) (rows : List Remark) (asm : AsmEvidence)
    (kernel : String) : KernelRow :=
  let linked := linked_rows rows kernel
  let lowered_list := linked.filter (fun r => r.status.getD "" = "lowered")
  let reject_list := linked.filter (fun r => r.status.getD "" = "reject")
  let picked := classify_chosen mode rows kernel
  let chosen := picked.1
  let status := picked.2.1
  let reason := picked.2.2.1
  let selected_mode := picked.2.2.2.1
  let configured_mode := picked.2.2.2.2
  let touches_memory :=
    match chosen with
    | some c => to_bool c.touches_memory none
    | none => to_bool PyVal.vnone none
  let header : Bool × String :=
    match touches_memory with
    | some true => (asm.has_mem_block, "mseq_or_mpar")
    | some false => (asm.has_tile_block, "vseq_or_vpar")
    | none => (asm.has_mem_block || asm.has_tile_block, "any_vector_header")
  let has_expected_header := header.1
  let expected_header_kind := header.2
  let has_any_header := asm.has_mem_block || asm.has_tile_block
  let has_strict_lowering_reason :=
    decide (status = "lowered") && str_starts_with reason "lowered_vblock"
  let strict_vectorized :=
    has_strict_lowering_reason && has_expected_header && asm.has_vec_insn
      && asm.has_btext
  { kernel := kernel
    resolved_symbol := asm.resolved_symbol
    status := status
    reason := reason
    bucket := if strict_vectorized then "lowered" else map_reason_to_gap_bucket reason
    configured_mode := configured_mode
    selected_mode := selected_mode
    touches_memory := touches_memory
    loop_rows_total := linked.length
    lowered_loops := lowered_list.length
    reject_loops := reject_list.length
    asm_has_any_vector_header := has_any_header
    asm_has_mem_header := asm.has_mem_block
    asm_has_tile_header := asm.has_tile_block
    asm_header_expected_kind := expected_header_kind
    asm_header_matches_policy := has_expected_header
    asm_has_btext := asm.has_btext
    asm_has_vec_insn := asm.has_vec_insn
    strict_vectorized := strict_vectorized }

/-- Aggregate result of the classification phase of `main` (lines 206–343):
kernel list, per-kernel rows, the vectorized / non-vectorized partitions,
counts and the coverage percentage (float division modelled over `Rat`).
The source builds `missing_functions`, `vectorized` and `non_vectorized` by
appending inside loops over `kernels`; filtering `kernels` (respectively the
rows) in order is the same computation. -/
structure AnalyzeResult where
  missing_functions : List String
  rows : List KernelRow
  vectorized : List String
  non_vectorized : List String
  total : Nat
  vec_count : Nat
  non_vec_count : Nat
  coverage : ℚ
deriving DecidableEq

/-- Embeds the classification phase of `main` over already-split disassembly
functions and already-parsed remark rows. -/
def analyze (mode : String) (kernels : List String)
    (functions : List (String × String)) (remark_rows : List Remark) :
    AnalyzeResult :=
  let missing := kernels.filter
    (fun k => (lookup_function_name functions k).isNone)
  let rows := kernels.map
    (fun k => classify_kernel mode remark_rows (compute_asm_evidence functions k) k)
  let vectorized := (rows.filter (fun r => r.strict_vectorized)).map
    (fun r => r.kernel)
  let non_vectorized := (rows.filter (fun r => !r.strict_vectorized)).map
    (fun r => r.kernel)
  let total := kernels.length
  let vec_count := vectorized.length
  let non_vec_count := non_vectorized.length
  let coverage : ℚ :=
    if total = 0 then 0 else (100 * (vec_count : ℚ)) / (total : ℚ)
  ⟨missing, rows, vectorized, non_vectorized, total, vec_count, non_vec_count,
    coverage⟩

/-- Round-half-even at two decimals, modelling Python `round(x, 2)` (whose
float tie behaviour is idealized as exact rational half-even rounding; no
verified property depends on ties). -/
def round2 (x : ℚ) : ℚ :=
  let y := x * 100
  let f : ℤ := ⌊y⌋
  let frac := y - (f : ℚ)
  let r : ℤ :=
    if frac < 1 / 2 then f
    else if 1 / 2 < frac then f + 1
    else if Even f then f else f + 1
  (r : ℚ) / 100

/-- The coverage JSON payload (`coverage_payload`, lines 345–363; path
fields, which merely echo the command line, are not modelled). -/
structure CoveragePayload where
  mode : String
  total : Nat
  vectorized : Nat
  non_vectorized : Nat
  coverage_percent : ℚ
  vectorized_kernels : List String
  non_vectorized_kernels : List String
  missing_functions : List String
deriving DecidableEq

/-- Builds `coverage_payload`. -/
def coverage_payload_of (mode : String) (kernels : List String)
    (functions : List (String × String)) (remark_rows : List Remark) :
    CoveragePayload :=
  let a := analyze mode kernels functions remark_rows
  ⟨mode, a.total, a.vec_count, a.non_vec_count, round2 a.coverage,
    a.vectorized, a.non_vectorized, a.missing_functions⟩

/-- The per-kernel remarks-summary JSON payload (`remarks_payload`,
lines 367–372). -/
structure RemarksPayload where
  mode : String
  total_kernels : Nat
  strict_vectorized_kernels : Nat
  rows : List KernelRow
deriving DecidableEq

/-- Builds `remarks_payload`. -/
def remarks_payload_of (mode : String) (kernels : List String)
    (functions : List (String × String)) (remark_rows : List Remark) :
    RemarksPayload :=
  let a := analyze mode kernels functions remark_rows
  ⟨mode, a.total, a.vec_count, a.rows⟩

/-- Bucket normalization of the gap-plan loop: a bucket outside the fixed
taxonomy keys falls back to `other`. -/
def normalize_bucket (bucket : String) : String :=
  if bucket ∈ gap_bucket_order then bucket else "other"

/-- One `kernel_plan` entry (lines 386–401; unmodelled pass-through metadata
fields omitted as in `KernelRow`). -/
structure PlanRow where
  kernel : String
  bucket : String
  reason : String
  configured_mode : String
  selected_mode : String
  touches_memory : Option Bool
  loop_rows_total : Nat
  next_action : String
deriving DecidableEq

/-- The gap-plan JSON payload (`gap_payload`, lines 403–412). -/
structure GapPayload where
  mode : String
  total_kernels : Nat
  vectorized_kernels : Nat
  non_vectorized_kernels : Nat
  missing_functions : List String
  bucket_counts : List (String × Nat)
  buckets : List (String × List String)
  kernel_plan : List PlanRow
deriving DecidableEq

/-- Builds `gap_payload`: buckets collect non-vectorized kernels in row
order under their normalized bucket, reported in the fixed bucket order;
the plan rows carry the per-bucket next action. -/
def gap_payload_of (mode : String) (kernels : List String)
    (functions : List (String × String)) (remark_rows : List Remark) :
    GapPayload :=
  let a := analyze mode kernels functions remark_rows
  let gap_rows := a.rows.filter (fun r => !r.strict_vectorized)
  let buckets := gap_bucket_order.map (fun b =>
    (b, (gap_rows.filter (fun r => normalize_bucket r.bucket = b)).map
      (fun r => r.kernel)))
  ⟨mode, a.total, a.vec_count, a.non_vec_count,
    a.missing_functions.mergeSort (fun x y => x ≤ y),
    buckets.map (fun p => (p.1, p.2.length)), buckets,
    gap_rows.map (fun r =>
      { kernel := r.kernel
        bucket := normalize_bucket r.bucket
        reason := r.reason
        configured_mode := r.configured_mode
        selected_mode := r.selected_mode
        touches_memory := r.touches_memory
        loop_rows_total := r.loop_rows_total
        next_action :=
          (gap_bucket_actions.lookup (normalize_bucket r.bucket)).getD
            "manual_triage" })⟩

/-- Content of the markdown report (lines 416–453), modelled as its data
rather than its formatted text. -/
structure ReportData where
  mode : String
  total : Nat
  vec_count : Nat
  non_vec_count : Nat
  coverage : ℚ
  missing_functions : List String
  non_vectorized : List String
  bucket_counts : List (String × Nat)
deriving DecidableEq

/-- Builds the markdown report data. -/
def report_data_of (mode : String) (kernels : List String)
    (functions : List (String × String)) (remark_rows : List Remark) :
    ReportData :=
  let a := analyze mode kernels functions remark_rows
  ⟨mode, a.total, a.vec_count, a.non_vec_count, a.coverage,
    a.missing_functions, a.non_vectorized,
    (gap_payload_of mode kernels functions remark_rows).bucket_counts⟩

/-- One report write of `main`, in program order. -/
inductive WriteEvent where
  | coverage_json (p : CoveragePayload)
  | remarks_summary (p : RemarksPayload)
  | gap_plan (p : GapPayload)
  | markdown_report (r : ReportData)
deriving DecidableEq

/-- The four report writes of `main` (lines 364–453), in program order. -/
def analyze_writes (mode : String) (kernels : List String)
    (functions : List (String × String)) (remark_rows : List Remark) :
    List WriteEvent :=
  [WriteEvent.coverage_json (coverage_payload_of mode kernels functions remark_rows),
   WriteEvent.remarks_summary (remarks_payload_of mode kernels functions remark_rows),
   WriteEvent.gap_plan (gap_payload_of mode kernels functions remark_rows),
   WriteEvent.markdown_report (report_data_of mode kernels functions remark_rows)]

/-- Embeds the tail of `main`: all four reports are written, then the
`--fail-under` gate (lines 455–461) decides the exit code — 2 when a
minimum is configured and the strict-vectorized count falls below it, else
0. -/
def analyze_main (mode : String) (kernels : List String)
    (functions : List (String × String)) (remark_rows : List Remark)
    (fail_under : Option Nat) : List WriteEvent × Nat :=
  let writes := analyze_writes mode kernels functions remark_rows
  let a := analyze mode kernels functions remark_rows
  (writes,
    match fail_under with
    | some n => if a.vec_count < n then 2 else 0
    | none => 0)

/-- Whitespace-separated tokens of a line (fuel-indexed; every step consumes
at least one character, so fuel equal to the list length suffices). -/
def ws_tokens_aux : Nat → List Char → List (List Char)
  | 0, _ => []
  | fuel + 1, l =>
      match l.dropWhile Char.isWhitespace with
      | [] => []
      | c :: cs =>
          (c :: cs).takeWhile (fun d => !d.isWhitespace)
            :: ws_tokens_aux fuel ((c :: cs).dropWhile (fun d => !d.isWhitespace))

/-- Whitespace-separated tokens of a line. -/
def ws_tokens (l : List Char) : List (List Char) :=
  ws_tokens_aux l.length l

/-- Python-identifier shape `[A-Za-z_][A-Za-z0-9_]*` (ASCII). -/
def is_identifier (l : List Char) : Bool :=
  match l with
  | [] => false
  | c :: cs => (c.isAlpha || c == '_') && cs.all (fun d => d.isAlphanum || d == '_')

/-- Embeds `_RE_TSVC_ROW.match`: a full-line match of
`^\s*([A-Za-z_][A-Za-z0-9_]*)\s+(\S+)\s+(\S+)\s*$` is exactly three
whitespace-separated tokens whose first is an identifier. -/
def match_tsvc_row (line : String) : Option (String × String × String) :=
  match ws_tokens line.data with
  | [a, b, c] =>
      if is_identifier a then some (String.mk a, String.mk b, String.mk c)
      else none
  | _ => none

/-- One parsed checksum-log row (`{"time": ..., "checksum": ...}`). -/
structure LogRow where
  time : String
  checksum : String
deriving DecidableEq

/-- Embeds `_parse_log`: matched rows keyed by kernel, the literal header
kernel `Loop` skipped, first occurrence winning on duplicate kernels,
insertion order preserved. -/
def parse_log (lines : List String) : List (String × LogRow) :=
  lines.foldl
    (fun rows raw =>
      match match_tsvc_row raw with
      | none => rows
      | some (kernel, t, c) =>
          if kernel = "Loop" then rows
          else if (rows.lookup kernel).isSome then rows
          else rows ++ [(kernel, ⟨t, c⟩)])
    []

/-- One checksum-mismatch record of the comparator. -/
structure MismatchRow where
  kernel : String
  baseline_checksum : String
  candidate_checksum : String
  baseline_time : String
  candidate_time : String
deriving DecidableEq

/-- The comparator's payload (`payload`, lines 99–111 of
`compare_tsvc_checksums.py`; path fields not modelled). -/
structure ComparePayload where
  kernels_compared : Nat
  baseline_kernels_found : Nat
  candidate_kernels_found : Nat
  missing_in_baseline : List String
  missing_in_candidate : List String
  checksum_mismatch_count : Nat
  checksum_mismatches : List MismatchRow
  ok : Bool
deriving DecidableEq

/-- The kernels compared: the allow-list verbatim when given, else the
sorted union of the kernels found in the two logs
(`sorted(set(baseline_rows) | set(candidate_rows))`). -/
def compared_kernels (baseline_rows candidate_rows : List (String × LogRow))
    (kernel_filter : Option (List String)) : List String :=
  match kernel_filter with
  | some ks => ks
  | none =>
      ((baseline_rows.map (fun p => p.1) ++ candidate_rows.map (fun p => p.1)
        ).toFinset).sort (fun x y => x ≤ y)

/-- Embeds the comparison loop of `main` (lines 79–111): missing lists, the
mismatch rows for kernels present in both logs with differing checksums,
and the overall `ok` flag. -/
def compare_checksums (baseline_lines candidate_lines : List String)
    (kernel_filter : Option (List String)) : ComparePayload :=
  let baseline_rows := parse_log baseline_lines
  let candidate_rows := parse_log candidate_lines
  let kernels := compared_kernels baseline_rows candidate_rows kernel_filter
  let missing_in_baseline := kernels.filter
    (fun k => (baseline_rows.lookup k).isNone)
  let missing_in_candidate := kernels.filter
    (fun k => (candidate_rows.lookup k).isNone)
  let mismatches := kernels.filterMap (fun k =>
    match baseline_rows.lookup k, candidate_rows.lookup k with
    | some b, some c =>
        if b.checksum ≠ c.checksum then
          some ⟨k, b.checksum, c.checksum, b.time, c.time⟩
        else none
    | _, _ => none)
  ⟨kernels.length, baseline_rows.length, candidate_rows.length,
    missing_in_baseline, missing_in_candidate, mismatches.length, mismatches,
    missing_in_baseline.isEmpty && missing_in_candidate.isEmpty
      && mismatches.isEmpty⟩

/-- Swap of the baseline/candidate roles in a mismatch record: the same
kernel with the unordered pair of checksums (and times) flipped. -/
def swap_mismatch (m : MismatchRow) : MismatchRow :=
  ⟨m.kernel, m.candidate_checksum, m.baseline_checksum, m.candidate_time,
    m.baseline_time⟩

/-- Modelled from the spec for claim C2 (the claimed closure-union
semantics, to be compared with the source's `compute_asm_evidence`): the
union of a per-body marker over every function body in the kernel's
reachability closure. -/
def closure_union_flag (marker : String → Bool)
    (functions : List (String × String)) (root : String) : Bool :=
  (expand_reachable_chunks functions root).any (fun p => marker p.2)

/-- Specification-side characterization for claim C3: `r` is a most
frequent element of `rs` and, among the most frequent ones, the first
encountered. -/
def IsMostFrequentFirst (rs : List String) (r : String) : Prop :=
  r ∈ rs ∧ (∀ x ∈ rs, rs.count x ≤ rs.count r) ∧
    (∀ x ∈ rs, rs.count x = rs.count r → rs.indexOf r ≤ rs.indexOf x)

/-- Specification-side predicate for claim C4: some rule of the ordered
gap-bucket rule list matches the (stripped) reason. -/
def AnyGapRuleMatches (reason : String) : Prop :=
  let text := py_strip reason
  (text = "no_loop_candidate" ∨ text = "no_tripcount_expr" ∨
    text = "tripcount_expand_failed") ∨
  str_starts_with text "unsupported_value_expr:" = true ∨
  (str_contains text "non_affine" = true ∨ text = "unsupported_store_stride") ∨
  (text = "inner_control_flow" ∨ text = "complex_control_flow" ∨
    text = "not_innermost_loop" ∨ text = "not_loop_simplify" ∨
    text = "preheader_not_simple_branch" ∨
    text = "unsupported_inner_backedge" ∨
    text = "unsupported_branch_condition" ∨
    text = "unsupported_branch_predicate" ∨
    text = "unsupported_branch_fcmp_condition" ∨
    text = "unsupported_terminator") ∨
  (text = "value_live_out" ∨ text = "unsupported_reduction_kind" ∨
    text = "unsupported_reduction_init" ∨
    text = "unsupported_reduction_value") ∨
  text = "no_store_in_loop"

/-- Claim C1: for every kernel the strict_vectorized verdict is true iff
all four conditions hold — the chosen remark gives status `lowered` with a
reason beginning with the canonical `lowered_vblock` prefix, the disassembly
evidence shows the policy-matched block-header kind (memory header when the
chosen remark's touches_memory is true, tile header when false, either
header when unknown or absent), the evidence shows a vector-tagged `v.*`
instruction, and the evidence shows an intra-text `b.text` transfer; and
flipping any single condition while the others hold makes the verdict
false. -/
theorem claim1_strict_vectorized_iff (mode : String) (rows : List Remark)
    (asm : AsmEvidence) (kernel : String) :
    ((classify_kernel mode rows asm kernel).strict_vectorized = true ↔
      ((classify_kernel mode rows asm kernel).status = "lowered" ∧
        str_starts_with (classify_kernel mode rows asm kernel).reason
          "lowered_vblock" = true ∧
        (classify_kernel mode rows asm kernel).asm_header_matches_policy = true ∧
        (classify_kernel mode rows asm kernel).asm_has_vec_insn = true ∧
        (classify_kernel mode rows asm kernel).asm_has_btext = true)) ∧
    ((classify_kernel mode rows asm kernel).asm_header_matches_policy =
      (match (classify_kernel mode rows asm kernel).touches_memory with
       | some true => asm.has_mem_block
       | some false => asm.has_tile_block
       | none => asm.has_mem_block || asm.has_tile_block)) ∧
    (¬ ((classify_kernel mode rows asm kernel).status = "lowered" ∧
        str_starts_with (classify_kernel mode rows asm kernel).reason
          "lowered_vblock" = true) →
      (classify_kernel mode rows asm kernel).strict_vectorized = false) ∧
    ((classify_kernel mode rows asm kernel).asm_header_matches_policy = false →
      (classify_kernel mode rows asm kernel).strict_vectorized = false) ∧
    ((classify_kernel mode rows asm kernel).asm_has_vec_insn = false →
      (classify_kernel mode rows asm kernel).strict_vectorized = false) ∧
    ((classify_kernel mode rows asm kernel).asm_has_btext = false →
      (classify_kernel mode rows asm kernel).strict_vectorized = false) := by
  rcases hcc : classify_chosen mode rows kernel with ⟨chosen, status, reason, sm, cm⟩
  simp only [classify_kernel, hcc]
  rcases chosen with _ | c
  · simp only [to_bool]
    constructor
    · simp [Bool.and_eq_true, decide_eq_true_eq, and_assoc]
    · refine ⟨by trivial, ?_, ?_, ?_, ?_⟩ <;> intro h <;>
        simp_all [Bool.and_eq_true, decide_eq_true_eq]
  · rcases htm : to_bool c.touches_memory none with _ | b
    · simp only [htm]
      constructor
      · simp [Bool.and_eq_true, decide_eq_true_eq, and_assoc]
      · refine ⟨by trivial, ?_, ?_, ?_, ?_⟩ <;> intro h <;>
          simp_all [Bool.and_eq_true, decide_eq_true_eq]
    · cases b <;> simp only [htm] <;>
        refine ⟨by simp [Bool.and_eq_true, decide_eq_true_eq, and_assoc],
          by trivial, ?_, ?_, ?_, ?_⟩ <;> intro h <;>
        simp_all [Bool.and_eq_true, decide_eq_true_eq]

/-- Claim C4: the gap-bucket mapping is a total function into the fixed
taxonomy, evaluated top to bottom with the first matching rule winning, and
any string matching no rule maps to `other` (totality of the Lean function
is the never-raises part). -/
theorem claim4_gap_bucket_total_first_match (reason : String) :
    map_reason_to_gap_bucket reason ∈ gap_bucket_order ∧
    (¬ AnyGapRuleMatches reason → map_reason_to_gap_bucket reason = "other") ∧
    (py_strip reason = "" → map_reason_to_gap_bucket reason = "other") ∧
    ((py_strip reason = "no_loop_candidate" ∨
        py_strip reason = "no_tripcount_expr" ∨
        py_strip reason = "tripcount_expand_failed") →
      map_reason_to_gap_bucket reason = "loop_removed_before_pass") ∧
    (¬ (py_strip reason = "no_loop_candidate" ∨
        py_strip reason = "no_tripcount_expr" ∨
        py_strip reason = "tripcount_expand_failed") ∧
      str_starts_with (py_strip reason) "unsupported_value_expr:" = true →
      map_reason_to_gap_bucket reason = "unsupported_value_expression") ∧
    (¬ (py_strip reason = "no_loop_candidate" ∨
        py_strip reason = "no_tripcount_expr" ∨
        py_strip reason = "tripcount_expand_failed") ∧
      ¬ str_starts_with (py_strip reason) "unsupported_value_expr:" = true ∧
      (str_contains (py_strip reason) "non_affine" = true ∨
        py_strip reason = "unsupported_store_stride") →
      map_reason_to_gap_bucket reason = "non_affine_address") := by
  simp only [map_reason_to_gap_bucket, AnyGapRuleMatches]
  split_ifs with h1 h2 h3 h4 h5 h6 h7 <;>
    first
    | (simp_all [gap_bucket_order]; tauto)
    | simp_all [gap_bucket_order]

/-- Claim C8 counterexample: kernel `s176` with no remark records gets the
reason string `no_remarks_for_kernel`, not the claimed sentinel spelling
`no remarks for kernel`. -/
theorem claim8_counterexample :
    linked_rows [] "s176" = [] ∧
    (classify_kernel "auto" [] (compute_asm_evidence [] "s176") "s176").reason ≠
      "no remarks for kernel" := by
  constructor
  · rfl
  · decide

/-- Claim C8 (amended): for a kernel with no remark records at all the
classification result has status `reject`, reason equal to the sentinel
string `no_remarks_for_kernel`, gap bucket `other`, and strict_vectorized
false. -/
theorem claim8_amended_no_remarks (mode : String) (rows : List Remark)
    (asm : AsmEvidence) (kernel : String)
    (h : linked_rows rows kernel = []) :
    (classify_kernel mode rows asm kernel).status = "reject" ∧
    (classify_kernel mode rows asm kernel).reason = "no_remarks_for_kernel" ∧
    (classify_kernel mode rows asm kernel).bucket = "other" ∧
    (classify_kernel mode rows asm kernel).strict_vectorized = false := by
  have hcc : classify_chosen mode rows kernel =
      (none, "reject", "no_remarks_for_kernel", "mseq", mode) := by
    simp [classify_chosen, h]
  refine ⟨?_, ?_, ?_, ?_⟩ <;>
    first
    | (simp [classify_kernel, hcc, to_bool]; decide)
    | simp [classify_kernel, hcc, to_bool]

/-- Claim C8 witness at kernel `s176` with an empty remark stream. -/
theorem claim8_witness :
    linked_rows [] "s176" = [] ∧
    ((classify_kernel "auto" [] (compute_asm_evidence [] "s176") "s176").status
        = "reject" ∧
      (classify_kernel "auto" [] (compute_asm_evidence [] "s176") "s176").reason
        = "no_remarks_for_kernel" ∧
      (classify_kernel "auto" [] (compute_asm_evidence [] "s176") "s176").bucket
        = "other" ∧
      (classify_kernel "auto" [] (compute_asm_evidence [] "s176")
        "s176").strict_vectorized = false) :=
  ⟨rfl, claim8_amended_no_remarks "auto" [] (compute_asm_evidence [] "s176")
    "s176" rfl⟩

/-- Claim C6: the coverage percentage is always between 0 and 100, equals
100 * vectorized / total when the kernel total is positive, and equals 0
when the total is zero (the zero-total guard of the source, so no division
by zero occurs). -/
theorem claim6_coverage_bounds (mode : String) (kernels : List String)
    (functions : List (String × String)) (remark_rows : List Remark) :
    0 ≤ (analyze mode kernels functions remark_rows).coverage ∧
    (analyze mode kernels functions remark_rows).coverage ≤ 100 ∧
    ((analyze mode kernels functions remark_rows).total ≠ 0 →
      (analyze mode kernels functions remark_rows).coverage =
        (100 * ((analyze mode kernels functions remark_rows).vec_count : ℚ)) /
          ((analyze mode kernels functions remark_rows).total : ℚ)) ∧
    ((analyze mode kernels functions remark_rows).total = 0 →
      (analyze mode kernels functions remark_rows).coverage = 0) := by
  have hv : (analyze mode kernels functions remark_rows).vec_count ≤
      (analyze mode kernels functions remark_rows).total := by
    simp only [analyze, List.length_map]
    exact (List.length_filter_le _ _).trans (le_of_eq (List.length_map _ _))
  rcases Nat.eq_zero_or_pos (analyze mode kernels functions remark_rows).total
    with h0 | hpos
  · have hc : (analyze mode kernels functions remark_rows).coverage = 0 := by
      simp only [analyze] at h0 ⊢
      simp [h0]
    refine ⟨le_of_eq hc.symm, ?_, fun h => absurd h0 h, fun _ => hc⟩
    rw [hc]; norm_num
  · have hne : (analyze mode kernels functions remark_rows).total ≠ 0 :=
      Nat.pos_iff_ne_zero.mp hpos
    have hc : (analyze mode kernels functions remark_rows).coverage =
        (100 * ((analyze mode kernels functions remark_rows).vec_count : ℚ)) /
          ((analyze mode kernels functions remark_rows).total : ℚ) := by
      simp only [analyze] at hne ⊢
      simp [hne]
    have ht : (0 : ℚ) < ((analyze mode kernels functions remark_rows).total : ℚ) := by
      exact_mod_cast hpos
    have hvq : ((analyze mode kernels functions remark_rows).vec_count : ℚ) ≤
        ((analyze mode kernels functions remark_rows).total : ℚ) := by
      exact_mod_cast hv
    refine ⟨?_, ?_, fun _ => hc, fun h => absurd h hne⟩
    · rw [hc]; positivity
    · rw [hc, div_le_iff₀ ht]; nlinarith

/-- Claim C7: when a minimum strict-vectorized count is configured and the
strict-vectorized count falls below it, the analyzer exits with the
non-zero code 2, and the four reports (coverage JSON, remarks summary,
gap plan, markdown report) are written exactly as without the gate, before
the failure is signalled. -/
theorem claim7_gate_failure_reports_written (mode : String)
    (kernels : List String) (functions : List (String × String))
    (remark_rows : List Remark) (n : Nat)
    (h : (analyze mode kernels functions remark_rows).vec_count < n) :
    analyze_main mode kernels functions remark_rows (some n) =
      (analyze_writes mode kernels functions remark_rows, 2) ∧
    (analyze_main mode kernels functions remark_rows (some n)).1 =
      (analyze_main mode kernels functions remark_rows none).1 ∧
    (analyze_main mode kernels functions remark_rows (some n)).2 ≠ 0 ∧
    analyze_writes mode kernels functions remark_rows =
      [WriteEvent.coverage_json
          (coverage_payload_of mode kernels functions remark_rows),
        WriteEvent.remarks_summary
          (remarks_payload_of mode kernels functions remark_rows),
        WriteEvent.gap_plan (gap_payload_of mode kernels functions remark_rows),
        WriteEvent.markdown_report
          (report_data_of mode kernels functions remark_rows)] := by
  refine ⟨?_, rfl, ?_, rfl⟩
  · simp [analyze_main, h]
  · simp [analyze_main, h]

/-- Claim C7 witness: a one-kernel run with no disassembly functions and an
empty remark stream has strict-vectorized count 0, below the configured
minimum 1. -/
theorem claim7_witness :
    (analyze "auto" ["s000"] [] []).vec_count < 1 ∧
    (analyze_main "auto" ["s000"] [] [] (some 1) =
        (analyze_writes "auto" ["s000"] [] [], 2) ∧
      (analyze_main "auto" ["s000"] [] [] (some 1)).1 =
        (analyze_main "auto" ["s000"] [] [] none).1 ∧
      (analyze_main "auto" ["s000"] [] [] (some 1)).2 ≠ 0 ∧
      analyze_writes "auto" ["s000"] [] [] =
        [WriteEvent.coverage_json (coverage_payload_of "auto" ["s000"] [] []),
          WriteEvent.remarks_summary (remarks_payload_of "auto" ["s000"] [] []),
          WriteEvent.gap_plan (gap_payload_of "auto" ["s000"] [] []),
          WriteEvent.markdown_report (report_data_of "auto" ["s000"] [] [])]) :=
  ⟨by decide, claim7_gate_failure_reports_written "auto" ["s000"] [] [] 1
    (by decide)⟩

/-- Claim C10: a kernel whose name resolves to no disassembly symbol gets
all-false evidence flags, appears in the missing-functions list, is never
strict-vectorized, is counted among the non-vectorized kernels, and its
bucket is the gap bucket of its reason exactly as for any non-vectorized
kernel. -/
theorem claim10_missing_symbol (mode : String) (kernels : List String)
    (functions : List (String × String)) (remark_rows : List Remark)
    (kernel : String) (hk : kernel ∈ kernels)
    (hmiss : lookup_function_name functions kernel = none) :
    compute_asm_evidence functions kernel =
      ⟨none, false, false, false, false⟩ ∧
    kernel ∈ (analyze mode kernels functions remark_rows).missing_functions ∧
    (classify_kernel mode remark_rows (compute_asm_evidence functions kernel)
        kernel).strict_vectorized = false ∧
    kernel ∈ (analyze mode kernels functions remark_rows).non_vectorized ∧
    (classify_kernel mode remark_rows (compute_asm_evidence functions kernel)
        kernel).bucket =
      map_reason_to_gap_bucket
        (classify_kernel mode remark_rows (compute_asm_evidence functions kernel)
          kernel).reason := by
  have hasm : compute_asm_evidence functions kernel =
      ⟨none, false, false, false, false⟩ := by
    simp [compute_asm_evidence, hmiss]
  have hstrict : (classify_kernel mode remark_rows
      (compute_asm_evidence functions kernel) kernel).strict_vectorized = false := by
    rw [hasm]
    rcases hcc : classify_chosen mode remark_rows kernel with
      ⟨chosen, status, reason, sm, cm⟩
    simp only [classify_kernel, hcc]
    rcases chosen with _ | c
    · simp [to_bool]
    · rcases htm : to_bool c.touches_memory none with _ | b
      · simp [htm]
      · cases b <;> simp [htm]
  refine ⟨hasm, ?_, hstrict, ?_, ?_⟩
  · simp only [analyze]
    exact List.mem_filter.mpr ⟨hk, by simp [hmiss]⟩
  · simp only [analyze]
    refine List.mem_map.mpr ⟨classify_kernel mode remark_rows
      (compute_asm_evidence functions kernel) kernel, ?_, rfl⟩
    exact List.mem_filter.mpr
      ⟨List.mem_map_of_mem _ hk, by simp [hstrict]⟩
  · rw [hasm] at hstrict ⊢
    rcases hcc : classify_chosen mode remark_rows kernel with
      ⟨chosen, status, reason, sm, cm⟩
    simp only [classify_kernel, hcc] at hstrict ⊢
    simp_all

/-- Claim C10 witness: kernel `s000` resolves to no symbol in a disassembly
holding only an unrelated function. -/
theorem claim10_witness :
    "s000" ∈ ["s000"] ∧
    lookup_function_name [("other_fn", "v.add x")] "s000" = none ∧
    (compute_asm_evidence [("other_fn", "v.add x")] "s000" =
        ⟨none, false, false, false, false⟩ ∧
      "s000" ∈ (analyze "auto" ["s000"] [("other_fn", "v.add x")]
        []).missing_functions ∧
      (classify_kernel "auto" []
          (compute_asm_evidence [("other_fn", "v.add x")] "s000")
          "s000").strict_vectorized = false ∧
      "s000" ∈ (analyze "auto" ["s000"] [("other_fn", "v.add x")]
        []).non_vectorized ∧
      (classify_kernel "auto" []
          (compute_asm_evidence [("other_fn", "v.add x")] "s000")
          "s000").bucket =
        map_reason_to_gap_bucket
          (classify_kernel "auto" []
            (compute_asm_evidence [("other_fn", "v.add x")] "s000")
            "s000").reason) :=
  ⟨by decide, by decide,
    claim10_missing_symbol "auto" ["s000"] [("other_fn", "v.add x")] []
      "s000" (by decide) (by decide)⟩

/-- Swapping the two logs swaps the roles in the kernel-selection step
without changing the selected kernels. -/
theorem compared_kernels_comm (b c : List (String × LogRow))
    (kf : Option (List String)) :
    compared_kernels c b kf = compared_kernels b c kf := by
  cases kf with
  | some ks => rfl
  | none =>
      simp only [compared_kernels]
      congr 1
      simp [List.toFinset_append, Finset.union_comm]

/-- Claim C5: the checksum comparator is symmetric in mismatch detection —
swapping the baseline and candidate logs (for any optional kernel
allow-list) yields the same mismatch rows kernel for kernel, with the two
checksum (and time) values exchanged, hence the same mismatch set with the
same unordered value pairs. -/
theorem claim5_compare_symmetric (baseline_lines candidate_lines : List String)
    (kernel_filter : Option (List String)) :
    (compare_checksums candidate_lines baseline_lines
        kernel_filter).checksum_mismatches =
      (compare_checksums baseline_lines candidate_lines
          kernel_filter).checksum_mismatches.map swap_mismatch := by
  simp only [compare_checksums]
  rw [compared_kernels_comm, List.map_filterMap]
  apply List.filterMap_congr
  intro k hk
  cases hb : (parse_log baseline_lines).lookup k <;>
    cases hc : (parse_log candidate_lines).lookup k <;>
    simp only [hb, hc]
  any_goals rfl
  rename_i rb rc
  by_cases h : rb.checksum = rc.checksum
  · simp [h]
  · have h2 : rc.checksum ≠ rb.checksum := fun e => h e.symm
    simp [swap_mismatch, h, h2]

/-- Keys of a Counter update: unchanged when the key is present, appended at
the end when new. -/
theorem insert_count_keys (acc : List (String × Nat)) (s : String) :
    (insert_count acc s).map Prod.fst =
      if s ∈ acc.map Prod.fst then acc.map Prod.fst
      else acc.map Prod.fst ++ [s] := by
  induction acc with
  | nil => simp [insert_count]
  | cons p rest ih =>
      rcases p with ⟨k, n⟩
      by_cases hk : k = s
      · subst hk
        simp [insert_count]
      · simp only [insert_count, if_neg hk, List.map_cons, ih]
        by_cases hs : s ∈ rest.map Prod.fst
        · simp [hs, hk]
        · simp [hs, hk, Ne.symm hk]

/-- Entries of a Counter update (over unique keys): the bumped entry, an
untouched entry with a different key, or the freshly appended entry. -/
theorem insert_count_mem (acc : List (String × Nat)) (s : String)
    (hnd : (acc.map Prod.fst).Nodup) (q : String × Nat)
    (hq : q ∈ insert_count acc s) :
    (q.1 = s ∧ (q.1, q.2 - 1) ∈ acc ∧ 1 ≤ q.2) ∨
    (q.1 ≠ s ∧ q ∈ acc) ∨
    (q = (s, 1) ∧ s ∉ acc.map Prod.fst) := by
  induction acc with
  | nil =>
      simp only [insert_count, List.mem_singleton] at hq
      exact Or.inr (Or.inr ⟨hq, by simp⟩)
  | cons p rest ih =>
      rcases p with ⟨k, n⟩
      by_cases hk : k = s
      · subst hk
        have hins : insert_count ((k, n) :: rest) k = (k, n + 1) :: rest := by
          simp [insert_count]
        rw [hins] at hq
        rcases List.mem_cons.mp hq with hq | hq
        · subst hq
          exact Or.inl ⟨rfl, by simp, by simp⟩
        · have hk_not : k ∉ rest.map Prod.fst := by
            simp only [List.map_cons, List.nodup_cons] at hnd
            exact hnd.1
          have hq1 : q.1 ≠ k := fun h =>
            hk_not (h ▸ List.mem_map_of_mem Prod.fst hq)
          exact Or.inr (Or.inl ⟨hq1, List.mem_cons_of_mem _ hq⟩)
      · simp only [insert_count, if_neg hk, List.mem_cons] at hq
        rcases hq with rfl | hq
        · exact Or.inr (Or.inl ⟨fun h => hk h, List.mem_cons_self _ _⟩)
        · have hnd' : (rest.map Prod.fst).Nodup := by
            simp only [List.map_cons, List.nodup_cons] at hnd
            exact hnd.2
          rcases ih hnd' hq with ⟨h1, h2, h3⟩ | ⟨h1, h2⟩ | ⟨h1, h2⟩
          · exact Or.inl ⟨h1, List.mem_cons_of_mem _ h2, h3⟩
          · exact Or.inr (Or.inl ⟨h1, List.mem_cons_of_mem _ h2⟩)
          · refine Or.inr (Or.inr ⟨h1, ?_⟩)
            simp only [List.map_cons, List.mem_cons]
            rintro (h | h)
            · exact hk h.symm
            · exact h2 h

/-- Counts stay correct across one Counter update. -/
theorem insert_count_val (seen : List String) (acc : List (String × Nat))
    (s : String) (hnd : (acc.map Prod.fst).Nodup)
    (hA : ∀ q ∈ acc, q.2 = seen.count q.1)
    (hB : ∀ k, k ∈ seen ↔ k ∈ acc.map Prod.fst) :
    ∀ q ∈ insert_count acc s, q.2 = (seen ++ [s]).count q.1 := by
  intro q hq
  rcases insert_count_mem acc s hnd q hq with ⟨h1, h2, h3⟩ | ⟨h1, h2⟩ | ⟨h1, h2⟩
  · have hcnt := hA _ h2
    simp only at hcnt
    rw [List.count_append, List.count_singleton', if_pos h1.symm]
    omega
  · rw [List.count_append, List.count_singleton', if_neg (fun h => h1 h.symm),
      ← hA q h2]
    omega
  · have hs : s ∉ seen := fun h => h2 ((hB s).mp h)
    have h0 : seen.count s = 0 := List.count_eq_zero.mpr hs
    rw [h1]
    simp [List.count_append, h0]

/-- Key membership stays in sync across one Counter update. -/
theorem insert_count_keymem (seen : List String) (acc : List (String × Nat))
    (s : String) (hB : ∀ k, k ∈ seen ↔ k ∈ acc.map Prod.fst) :
    ∀ k, k ∈ seen ++ [s] ↔ k ∈ (insert_count acc s).map Prod.fst := by
  intro k
  rw [insert_count_keys]
  by_cases hs : s ∈ acc.map Prod.fst
  · rw [if_pos hs]
    simp only [List.mem_append, List.mem_singleton, hB k]
    constructor
    · rintro (h | rfl)
      · exact h
      · exact hs
    · exact Or.inl
  · rw [if_neg hs]
    simp [List.mem_append, hB k]

/-- Key uniqueness survives one Counter update. -/
theorem insert_count_nodup (acc : List (String × Nat)) (s : String)
    (hnd : (acc.map Prod.fst).Nodup) :
    ((insert_count acc s).map Prod.fst).Nodup := by
  rw [insert_count_keys]
  by_cases hs : s ∈ acc.map Prod.fst
  · rw [if_pos hs]; exact hnd
  · rw [if_neg hs]
    simp [List.nodup_append, hnd, hs]

/-- First-occurrence ordering of the keys survives one Counter update. -/
theorem insert_count_pairwise (seen : List String) (acc : List (String × Nat))
    (s : String) (hB : ∀ k, k ∈ seen ↔ k ∈ acc.map Prod.fst)
    (hC : List.Pairwise (fun x y => seen.indexOf x < seen.indexOf y)
      (acc.map Prod.fst)) :
    List.Pairwise
      (fun x y => (seen ++ [s]).indexOf x < (seen ++ [s]).indexOf y)
      ((insert_count acc s).map Prod.fst) := by
  have stable : ∀ x ∈ acc.map Prod.fst, ∀ y ∈ acc.map Prod.fst,
      seen.indexOf x < seen.indexOf y →
      (seen ++ [s]).indexOf x < (seen ++ [s]).indexOf y := by
    intro x hx y hy h
    rw [List.indexOf_append_of_mem ((hB x).mpr hx),
      List.indexOf_append_of_mem ((hB y).mpr hy)]
    exact h
  rw [insert_count_keys]
  by_cases hs : s ∈ acc.map Prod.fst
  · rw [if_pos hs]
    exact List.Pairwise.imp_of_mem (fun ha hb h => stable _ ha _ hb h) hC
  · rw [if_neg hs]
    rw [List.pairwise_append]
    refine ⟨List.Pairwise.imp_of_mem (fun ha hb h => stable _ ha _ hb h) hC,
      List.pairwise_singleton _ _, ?_⟩
    intro x hx y hy
    rcases List.mem_singleton.mp hy with rfl
    have hxs : x ∈ seen := (hB x).mpr hx
    have hys : y ∉ seen := fun h => hs ((hB y).mp h)
    rw [List.indexOf_append_of_mem hxs, List.indexOf_append_of_not_mem hys]
    have : seen.indexOf x < seen.length := List.indexOf_lt_length.mpr hxs
    omega

/-- Invariant of the Counter accumulator: counts are the counts of the seen
prefix, keys are exactly the seen elements without duplicates, and keys are
ordered by first occurrence. -/
theorem counter_aux_spec (l : List String) :
    ∀ (seen : List String) (acc : List (String × Nat)),
    (∀ q ∈ acc, q.2 = seen.count q.1) →
    (∀ k, k ∈ seen ↔ k ∈ acc.map Prod.fst) →
    ((acc.map Prod.fst).Nodup) →
    List.Pairwise (fun x y => seen.indexOf x < seen.indexOf y)
      (acc.map Prod.fst) →
    (∀ q ∈ counter_items_aux acc l, q.2 = (seen ++ l).count q.1) ∧
    (∀ k, k ∈ seen ++ l ↔ k ∈ (counter_items_aux acc l).map Prod.fst) ∧
    ((counter_items_aux acc l).map Prod.fst).Nodup ∧
    List.Pairwise (fun x y => (seen ++ l).indexOf x < (seen ++ l).indexOf y)
      ((counter_items_aux acc l).map Prod.fst) := by
  induction l with
  | nil =>
      intro seen acc hA hB hD hC
      simp only [counter_items_aux, List.append_nil]
      exact ⟨hA, hB, hD, hC⟩
  | cons s rest ih =>
      intro seen acc hA hB hD hC
      have step := ih (seen ++ [s]) (insert_count acc s)
        (insert_count_val seen acc s hD hA hB)
        (insert_count_keymem seen acc s hB)
        (insert_count_nodup acc s hD)
        (insert_count_pairwise seen acc s hB hC)
      have harr : (seen ++ [s]) ++ rest = seen ++ s :: rest := by simp
      rw [harr] at step
      simp only [counter_items_aux]
      exact step

/-- Specification of `counter_items`: counts, key set, uniqueness and
first-occurrence ordering over the full input list. -/
theorem counter_items_spec (rs : List String) :
    (∀ q ∈ counter_items rs, q.2 = rs.count q.1) ∧
    (∀ k, k ∈ rs ↔ k ∈ (counter_items rs).map Prod.fst) ∧
    ((counter_items rs).map Prod.fst).Nodup ∧
    List.Pairwise (fun x y => rs.indexOf x < rs.indexOf y)
      ((counter_items rs).map Prod.fst) := by
  have h := counter_aux_spec rs [] [] (by simp) (by simp) (by simp) (by simp)
  rw [List.nil_append] at h
  simp only [counter_items]
  exact h

/-- The strict-improvement left fold splits its input around its result:
everything before the result is strictly smaller, everything after is at
most it — exactly the head of a stable sort by descending count. -/
theorem foldl_pick_split (rest : List (String × Nat)) :
    ∀ p : String × Nat,
    ∃ l₁ l₂,
      p :: rest =
        l₁ ++ (rest.foldl (fun best q => if best.2 < q.2 then q else best) p)
          :: l₂ ∧
      (∀ q ∈ l₁,
        q.2 < (rest.foldl (fun best q => if best.2 < q.2 then q else best) p).2) ∧
      (∀ q ∈ l₂,
        q.2 ≤ (rest.foldl (fun best q => if best.2 < q.2 then q else best) p).2) := by
  induction rest with
  | nil =>
      intro p
      exact ⟨[], [], rfl, by simp, by simp⟩
  | cons q rest ih =>
      intro p
      simp only [List.foldl_cons]
      by_cases h : p.2 < q.2
      · rw [if_pos h]
        obtain ⟨l₁, l₂, heq, h1, h2⟩ := ih q
        set r := rest.foldl (fun best q => if best.2 < q.2 then q else best) q
          with hr
        have hq_le : q.2 ≤ r.2 := by
          rcases l₁ with _ | ⟨a, l₁t⟩
          · rw [List.nil_append] at heq
            have hinj := (List.cons.injEq _ _ _ _).mp heq
            exact le_of_eq (congrArg Prod.snd hinj.1)
          · have hinj := (List.cons.injEq _ _ _ _).mp heq
            have hqa := h1 a (List.mem_cons_self a l₁t)
            have hq2 : q.2 = a.2 := congrArg Prod.snd hinj.1
            omega
        refine ⟨p :: l₁, l₂, ?_, ?_, h2⟩
        · rw [List.cons_append, ← heq]
        · intro x hx
          rcases List.mem_cons.mp hx with rfl | hx'
          · omega
          · exact h1 x hx'
      · rw [if_neg h]
        obtain ⟨l₁, l₂, heq, h1, h2⟩ := ih p
        set r := rest.foldl (fun best q => if best.2 < q.2 then q else best) p
          with hr
        rcases l₁ with _ | ⟨a, l₁t⟩
        · rw [List.nil_append] at heq
          have hinj := (List.cons.injEq _ _ _ _).mp heq
          refine ⟨[], q :: l₂, ?_, by simp, ?_⟩
          · rw [List.nil_append, ← hinj.1, ← hinj.2]
          · intro x hx
            rcases List.mem_cons.mp hx with rfl | hx'
            · have hpr : p.2 = r.2 := congrArg Prod.snd hinj.1
              omega
            · exact h2 x hx'
        · have hinj := (List.cons.injEq _ _ _ _).mp heq
          refine ⟨p :: q :: l₁t, l₂, ?_, ?_, h2⟩
          · rw [List.cons_append, List.cons_append, hinj.2]
            rfl
          · intro x hx
            have hpa := h1 a (List.mem_cons_self a l₁t)
            have hp2 : p.2 = a.2 := congrArg Prod.snd hinj.1
            rcases List.mem_cons.mp hx with rfl | hx'
            · omega
            · rcases List.mem_cons.mp hx' with rfl | hx''
              · omega
              · exact h1 x (List.mem_cons_of_mem a hx'')

/-- Specification of the head of `most_common(1)` on a nonempty list: the
returned reason occurs in the list, has maximal multiplicity, and among the
maximal ones is the first encountered. -/
theorem most_common_reason_spec (rs : List String) (h : rs ≠ []) :
    IsMostFrequentFirst rs ((most_common_reason rs).getD "reject_unknown") := by
  obtain ⟨hA, hB, hD, hC⟩ := counter_items_spec rs
  rcases hitems : counter_items rs with _ | ⟨p, rest⟩
  · obtain ⟨x, hx⟩ := List.exists_mem_of_ne_nil rs h
    have hx' := (hB x).mp hx
    rw [hitems] at hx'
    simp at hx'
  obtain ⟨l₁, l₂, heq, h1, h2⟩ := foldl_pick_split rest p
  set m := rest.foldl (fun best q => if best.2 < q.2 then q else best) p with hm
  have hmcr : most_common_reason rs = some m.1 := by
    simp [most_common_reason, most_common_head, hitems]
  rw [hmcr, Option.getD_some]
  have hm_items : m ∈ counter_items rs := by
    rw [hitems, heq]
    exact List.mem_append_right _ (List.mem_cons_self m l₂)
  have hm_count : m.2 = rs.count m.1 := hA m hm_items
  have get_entry : ∀ x ∈ rs, ∃ q, q ∈ counter_items rs ∧ q.1 = x := by
    intro x hx
    obtain ⟨q, hq, hq1⟩ := List.mem_map.mp ((hB x).mp hx)
    exact ⟨q, hq, hq1⟩
  have entry_le : ∀ q ∈ counter_items rs, q.2 ≤ m.2 := by
    intro q hq
    rw [hitems, heq] at hq
    rcases List.mem_append.mp hq with hq' | hq'
    · exact le_of_lt (h1 q hq')
    · rcases List.mem_cons.mp hq' with rfl | hq''
      · exact le_rfl
      · exact h2 q hq''
  refine ⟨(hB m.1).mpr (List.mem_map_of_mem Prod.fst hm_items), ?_, ?_⟩
  · intro x hx
    obtain ⟨q, hq, rfl⟩ := get_entry x hx
    rw [← hA q hq, ← hm_count]
    exact entry_le q hq
  · intro x hx hcnt
    obtain ⟨q, hq, rfl⟩ := get_entry x hx
    have hq2 : q.2 = m.2 := by rw [hA q hq, hm_count, hcnt]
    rw [hitems, heq] at hq
    rcases List.mem_append.mp hq with hq' | hq'
    · have := h1 q hq'
      omega
    · rcases List.mem_cons.mp hq' with rfl | hq''
      · exact le_rfl
      · have hpw := hC
        rw [hitems, heq] at hpw
        rw [List.map_append, List.map_cons] at hpw
        have hpair := (List.pairwise_append.mp hpw).2.1
        have := (List.pairwise_cons.mp hpair).1 q.1
          (List.mem_map_of_mem Prod.fst hq'')
        exact le_of_lt this

/-- Claim C3: when a kernel has no lowered remark but at least one reject
remark, the chosen reason is the most frequent reject reason, ties broken
by first-encountered order — a deterministic function of the remark list,
independent of any runtime iteration order. -/
theorem claim3_reject_reason_most_frequent_first (mode : String)
    (rows : List Remark) (asm : AsmEvidence) (kernel : String)
    (hlow : (linked_rows rows kernel).filter
      (fun r => r.status.getD "" = "lowered") = [])
    (hrej : (linked_rows rows kernel).filter
      (fun r => r.status.getD "" = "reject") ≠ []) :
    IsMostFrequentFirst
      (((linked_rows rows kernel).filter
        (fun r => r.status.getD "" = "reject")).map (fun r => r.reason.getD ""))
      (classify_kernel mode rows asm kernel).reason := by
  rcases hr : (linked_rows rows kernel).filter
      (fun r => r.status.getD "" = "reject") with _ | ⟨c0, rest⟩
  · exact absurd hr hrej
  have hcc : classify_chosen mode rows kernel =
      (some c0, "reject",
        (most_common_reason ((c0 :: rest).map
          (fun r => r.reason.getD ""))).getD "reject_unknown",
        c0.selected_mode.getD "mseq", c0.configured_mode.getD mode) := by
    simp only [classify_chosen, hlow, hr]
  have hreason : (classify_kernel mode rows asm kernel).reason =
      (most_common_reason ((c0 :: rest).map
        (fun r => r.reason.getD ""))).getD "reject_unknown" := by
    simp only [classify_kernel, hcc]
  rw [hreason, hr]
  exact most_common_reason_spec _ (by simp)

/-- Claim C3 witness: reject reasons `b, a, a, b, c` — counts tie at 2
between `a` and `b`, and the first-encountered `b` wins. -/
theorem claim3_witness :
    (linked_rows
        [⟨"k", some "reject", some "b", none, none, PyVal.vnone⟩,
         ⟨"k", some "reject", some "a", none, none, PyVal.vnone⟩,
         ⟨"k", some "reject", some "a", none, none, PyVal.vnone⟩,
         ⟨"k", some "reject", some "b", none, none, PyVal.vnone⟩,
         ⟨"k", some "reject", some "c", none, none, PyVal.vnone⟩] "k").filter
      (fun r => r.status.getD "" = "lowered") = [] ∧
    (linked_rows
        [⟨"k", some "reject", some "b", none, none, PyVal.vnone⟩,
         ⟨"k", some "reject", some "a", none, none, PyVal.vnone⟩,
         ⟨"k", some "reject", some "a", none, none, PyVal.vnone⟩,
         ⟨"k", some "reject", some "b", none, none, PyVal.vnone⟩,
         ⟨"k", some "reject", some "c", none, none, PyVal.vnone⟩] "k").filter
      (fun r => r.status.getD "" = "reject") ≠ [] ∧
    IsMostFrequentFirst
      (((linked_rows
          [⟨"k", some "reject", some "b", none, none, PyVal.vnone⟩,
           ⟨"k", some "reject", some "a", none, none, PyVal.vnone⟩,
           ⟨"k", some "reject", some "a", none, none, PyVal.vnone⟩,
           ⟨"k", some "reject", some "b", none, none, PyVal.vnone⟩,
           ⟨"k", some "reject", some "c", none, none, PyVal.vnone⟩] "k").filter
        (fun r => r.status.getD "" = "reject")).map (fun r => r.reason.getD ""))
      (classify_kernel "auto"
        [⟨"k", some "reject", some "b", none, none, PyVal.vnone⟩,
         ⟨"k", some "reject", some "a", none, none, PyVal.vnone⟩,
         ⟨"k", some "reject", some "a", none, none, PyVal.vnone⟩,
         ⟨"k", some "reject", some "b", none, none, PyVal.vnone⟩,
         ⟨"k", some "reject", some "c", none, none, PyVal.vnone⟩]
        ⟨none, false, false, false, false⟩ "k").reason :=
  ⟨by decide, by decide,
    claim3_reject_reason_most_frequent_first "auto"
      [⟨"k", some "reject", some "b", none, none, PyVal.vnone⟩,
       ⟨"k", some "reject", some "a", none, none, PyVal.vnone⟩,
       ⟨"k", some "reject", some "a", none, none, PyVal.vnone⟩,
       ⟨"k", some "reject", some "b", none, none, PyVal.vnone⟩,
       ⟨"k", some "reject", some "c", none, none, PyVal.vnone⟩]
      ⟨none, false, false, false, false⟩ "k" (by decide) (by decide)⟩

/-- Unfolding of the worklist budget over one function entry. -/
theorem expand_budget_cons (p : String × String)
    (rest : List (String × String)) (visited : List String) :
    expand_budget (p :: rest) visited =
      (if p.1 ∉ visited then 1 + (btext_targets p.2).length else 0) +
        expand_budget rest visited := by
  simp only [expand_budget, List.filter_cons]
  by_cases h : p.1 ∈ visited
  · simp [h]
  · simp [h]

/-- Growing the visited set never grows the remaining budget. -/
theorem expand_budget_mono (functions : List (String × String))
    (name : String) (visited : List String) :
    expand_budget functions (name :: visited) ≤ expand_budget functions visited := by
  induction functions with
  | nil => simp [expand_budget]
  | cons p rest ih =>
      rw [expand_budget_cons, expand_budget_cons]
      by_cases h : p.1 ∈ visited
      · have h' : p.1 ∈ name :: visited := List.mem_cons_of_mem _ h
        simp only [h, h', not_true_eq_false, if_neg]
        simpa using ih
      · by_cases h2 : p.1 ∈ name :: visited
        · simp only [h, h2]
          simp only [not_true_eq_false, if_false, not_false_eq_true, if_true]
          omega
        · simp only [h, h2]
          simp only [not_false_eq_true, if_true]
          omega

/-- Visiting a resolvable unvisited function frees its full budget share. -/
theorem expand_budget_remove (functions : List (String × String))
    (hnd : (functions.map Prod.fst).Nodup) (name body : String)
    (visited : List String) (hlk : functions.lookup name = some body)
    (hnv : name ∉ visited) :
    expand_budget functions (name :: visited) + 1 + (btext_targets body).length
      ≤ expand_budget functions visited := by
  induction functions with
  | nil => simp [List.lookup] at hlk
  | cons p rest ih =>
      rcases p with ⟨k, b⟩
      rw [expand_budget_cons, expand_budget_cons]
      simp only [List.map_cons, List.nodup_cons] at hnd
      by_cases hk : k = name
      · subst hk
        simp only [List.lookup, beq_self_eq_true] at hlk
        injection hlk with hb
        subst hb
        have h1 : (k, b).1 ∈ k :: visited := List.mem_cons_self _ _
        simp only [h1, not_true_eq_false, if_neg, if_false]
        simp only [hnv, not_false_eq_true, if_true]
        have := expand_budget_mono rest k visited
        simp only [Nat.zero_add]
        omega
      · have hbeq : (name == k) = false := by
          simp only [beq_eq_false_iff_ne, ne_eq]
          exact fun e => hk e.symm
        have hlk' : rest.lookup name = some body := by
          simpa [List.lookup, hbeq] using hlk
        have step := ih hnd.2 hlk'
        by_cases hv : k ∈ visited
        · have hv' : (k, b).1 ∈ name :: visited := List.mem_cons_of_mem _ hv
          simp only [hv, hv', not_true_eq_false, if_neg, if_false]
          omega
        · have hv' : (k, b).1 ∉ name :: visited := by
            simp [List.mem_cons, hk, hv]
          simp only [hv, hv', not_false_eq_true, if_true]
          omega

/-- Pushing a list of targets one by one onto the worklist adds exactly its
length. -/
theorem foldl_cons_length (l : List String) :
    ∀ acc : List String,
      (l.foldl (fun wl t => t :: wl) acc).length = l.length + acc.length := by
  induction l with
  | nil => intro acc; simp
  | cons t rest ih =>
      intro acc
      simp only [List.foldl_cons, ih, List.length_cons]
      omega

/-- Fuel sufficiency for the `_expand_btext_reachable` worklist loop: with
unique function names, any fuel at least the worklist length plus the
unvisited budget never runs out — in particular the loop terminates on
every input, cyclic control transfers included. -/
theorem expand_aux_isSome (functions : List (String × String))
    (hnd : (functions.map Prod.fst).Nodup) :
    ∀ (fuel : Nat) (worklist visited : List String)
      (chunks : List (String × String)),
    worklist.length + expand_budget functions visited ≤ fuel →
    (expand_aux functions fuel worklist visited chunks).isSome = true := by
  intro fuel
  induction fuel with
  | zero =>
      intro wl visited chunks hb
      cases wl with
      | nil => simp [expand_aux]
      | cons a rest =>
          simp only [List.length_cons] at hb
          omega
  | succ f ih =>
      intro wl visited chunks hb
      cases wl with
      | nil => simp [expand_aux]
      | cons name rest =>
          simp only [List.length_cons] at hb
          simp only [expand_aux]
          by_cases hv : name ∈ visited
          · rw [if_pos hv]
            exact ih rest visited chunks (by omega)
          · rw [if_neg hv]
            cases hlk : functions.lookup name with
            | none => exact ih rest visited chunks (by omega)
            | some body =>
                have hlen : (((btext_targets body).filter
                    (fun t => t ∉ name :: visited &&
                      (functions.lookup t).isSome)).foldl
                    (fun wl t => t :: wl) rest).length ≤
                    (btext_targets body).length + rest.length := by
                  rw [foldl_cons_length]
                  have := List.length_filter_le
                    (fun t => t ∉ name :: visited && (functions.lookup t).isSome)
                    (btext_targets body)
                  omega
                have hrem := expand_budget_remove functions hnd name body
                  visited hlk hv
                exact ih _ (name :: visited) (chunks ++ [(name, body)])
                  (by omega)

/-- Chunk invariant of the worklist loop: when the loop returns, each
function body appears at most once (keys of the chunks are unique) and every
recorded chunk resolved in the function table — unresolved targets were
silently skipped. -/
theorem expand_aux_inv (functions : List (String × String)) :
    ∀ (fuel : Nat) (worklist visited : List String)
      (chunks result : List (String × String)),
    expand_aux functions fuel worklist visited chunks = some result →
    (chunks.map Prod.fst).Nodup →
    (∀ p ∈ chunks, p.1 ∈ visited ∧ functions.lookup p.1 = some p.2) →
    ((result.map Prod.fst).Nodup ∧
      ∀ p ∈ result, functions.lookup p.1 = some p.2) := by
  intro fuel
  induction fuel with
  | zero =>
      intro wl visited chunks result heq hnd hinv
      cases wl with
      | nil =>
          simp only [expand_aux, Option.some.injEq] at heq
          subst heq
          exact ⟨hnd, fun p hp => (hinv p hp).2⟩
      | cons a rest => simp [expand_aux] at heq
  | succ f ih =>
      intro wl visited chunks result heq hnd hinv
      cases wl with
      | nil =>
          simp only [expand_aux, Option.some.injEq] at heq
          subst heq
          exact ⟨hnd, fun p hp => (hinv p hp).2⟩
      | cons name rest =>
          simp only [expand_aux] at heq
          by_cases hv : name ∈ visited
          · rw [if_pos hv] at heq
            exact ih rest visited chunks result heq hnd hinv
          · rw [if_neg hv] at heq
            cases hlk : functions.lookup name with
            | none =>
                rw [hlk] at heq
                exact ih rest visited chunks result heq hnd hinv
            | some body =>
                rw [hlk] at heq
                refine ih _ (name :: visited) (chunks ++ [(name, body)]) result
                  heq ?_ ?_
                · rw [List.map_append]
                  rw [List.nodup_append]
                  refine ⟨hnd, List.nodup_singleton _, ?_⟩
                  intro x hx
                  obtain ⟨p, hp, rfl⟩ := List.mem_map.mp hx
                  have hpv := (hinv p hp).1
                  simp only [List.map_cons, List.map_nil, List.mem_singleton]
                  exact fun h => hv (h ▸ hpv)
                · intro p hp
                  rcases List.mem_append.mp hp with hp' | hp'
                  · obtain ⟨h1, h2⟩ := hinv p hp'
                    exact ⟨List.mem_cons_of_mem _ h1, h2⟩
                  · rcases List.mem_singleton.mp hp' with rfl
                    exact ⟨List.mem_cons_self _ _, hlk⟩

/-- Claim C9: the reachability-closure worklist loop terminates on every
input (its fuel, one unit per pop, is proved sufficient, including on
self-recursive and mutually recursive transfer graphs), each function body
enters the closure at most once, and transfer targets that do not resolve
in the function table are silently skipped (every chunk resolves). -/
theorem claim9_expand_terminates_nodup (functions : List (String × String))
    (root : String) (hnd : (functions.map Prod.fst).Nodup) :
    (expand_aux functions (expand_fuel functions) [root] [] []).isSome = true ∧
    ((expand_reachable_chunks functions root).map Prod.fst).Nodup ∧
    ∀ p ∈ expand_reachable_chunks functions root,
      functions.lookup p.1 = some p.2 := by
  have hsome := expand_aux_isSome functions hnd (expand_fuel functions)
    [root] [] [] (by simp [expand_fuel])
  obtain ⟨result, hres⟩ := Option.isSome_iff_exists.mp hsome
  have hinv := expand_aux_inv functions (expand_fuel functions) [root] [] []
    result hres (by simp) (by simp)
  have hchunks : expand_reachable_chunks functions root = result := by
    simp [expand_reachable_chunks, hres]
  rw [hchunks]
  exact ⟨hsome, hinv.1, hinv.2⟩

/-- Claim C9 witness: a mutually recursive transfer graph (`k` and `g`
transfer to each other, and to an unresolvable target `zzz`). -/
theorem claim9_witness :
    ((([("k", "b.text g\nb.text zzz"), ("g", "v.add\nb.text k")] :
        List (String × String)).map Prod.fst).Nodup) ∧
    ((expand_aux [("k", "b.text g\nb.text zzz"), ("g", "v.add\nb.text k")]
        (expand_fuel [("k", "b.text g\nb.text zzz"), ("g", "v.add\nb.text k")])
        ["k"] [] []).isSome = true ∧
      ((expand_reachable_chunks
          [("k", "b.text g\nb.text zzz"), ("g", "v.add\nb.text k")]
          "k").map Prod.fst).Nodup ∧
      ∀ p ∈ expand_reachable_chunks
          [("k", "b.text g\nb.text zzz"), ("g", "v.add\nb.text k")] "k",
        ([("k", "b.text g\nb.text zzz"), ("g", "v.add\nb.text k")] :
          List (String × String)).lookup p.1 = some p.2) :=
  ⟨by decide,
    claim9_expand_terminates_nodup
      [("k", "b.text g\nb.text zzz"), ("g", "v.add\nb.text k")] "k" (by decide)⟩

/-- A separator character that can take part in no `v.*` match: not a word
character, not the dot, not (case-insensitively) the letter v. -/
theorem vec_here_append_sep (d : Char) (hdot : (d == '.') = false)
    (hw : is_word_char d = false) :
    ∀ (c : Char) (a b : List Char),
      vec_insn_here ((c :: a) ++ d :: b) = vec_insn_here (c :: a) := by
  intro c a b
  match a with
  | [] =>
      simp only [List.cons_append, List.nil_append]
      cases b with
      | nil => simp [vec_insn_here, hdot]
      | cons e b' => simp [vec_insn_here, hdot]
  | [x] =>
      simp only [List.cons_append, List.singleton_append]
      simp [vec_insn_here, hw]
  | x :: y :: a' =>
      simp only [List.cons_append]
      rfl

/-- The scanner ignores the previous character beyond its boundary status. -/
theorem scan_vec_prev_congr (p q : Option Char)
    (h : is_boundary_before p = is_boundary_before q) :
    ∀ l, scan_vec_insn p l = scan_vec_insn q l := by
  intro l
  cases l with
  | nil => rfl
  | cons c cs => simp [scan_vec_insn, h]

/-- No `v.*` match starts at a non-word, non-v character. -/
theorem vec_here_sep_head (d : Char) (hv : (d.toLower == 'v') = false) :
    ∀ b, vec_insn_here (d :: b) = false := by
  intro b
  cases b with
  | nil => rfl
  | cons e b' =>
      cases b' with
      | nil => rfl
      | cons x b'' => simp [vec_insn_here, hv]

/-- Facts about whitespace characters used as separators. -/
theorem ws_char_facts (w : Char) (hw : w.isWhitespace = true) :
    (w == '.') = false ∧ is_word_char w = false ∧ (w.toLower == 'v') = false := by
  have h : w = ' ' ∨ w = '\t' ∨ w = '\r' ∨ w = '\n' := by
    simpa [Char.isWhitespace, Bool.or_eq_true, decide_eq_true_eq,
      or_assoc] using hw
  rcases h with rfl | rfl | rfl | rfl <;> exact ⟨by decide, by decide, by decide⟩

/-- Splitting the scan at an inert separator character. -/
theorem scan_vec_append_sep (d : Char) (hdot : (d == '.') = false)
    (hw : is_word_char d = false) (hv : (d.toLower == 'v') = false) :
    ∀ (a : List Char) (b : List Char) (prev : Option Char),
      scan_vec_insn prev (a ++ d :: b) =
        (scan_vec_insn prev a || scan_vec_insn (some d) b) := by
  intro a
  induction a with
  | nil =>
      intro b prev
      simp only [List.nil_append, scan_vec_insn]
      simp [vec_here_sep_head d hv b]
  | cons c a' ih =>
      intro b prev
      have hh := vec_here_append_sep d hdot hw c a' b
      simp only [List.cons_append] at hh ⊢
      simp only [scan_vec_insn, ih b (some c), hh]
      cases is_boundary_before prev && vec_insn_here (c :: a') <;>
        cases scan_vec_insn (some c) a' <;>
        cases scan_vec_insn (some d) b <;> rfl

/-- A run of whitespace contains no `v.*` match. -/
theorem scan_vec_ws_false :
    ∀ (tail : List Char), (∀ x ∈ tail, x.isWhitespace = true) →
    ∀ prev, scan_vec_insn prev tail = false := by
  intro tail
  induction tail with
  | nil => intro _ prev; rfl
  | cons w t ih =>
      intro hws prev
      obtain ⟨_, _, hwv⟩ := ws_char_facts w (hws w (List.mem_cons_self _ _))
      simp only [scan_vec_insn, vec_here_sep_head w hwv t, Bool.and_false,
        Bool.false_or]
      exact ih (fun x hx => hws x (List.mem_cons_of_mem _ hx)) (some w)

/-- Appending trailing whitespace never changes the scan verdict. -/
theorem scan_vec_ws_suffix :
    ∀ (tail : List Char), (∀ x ∈ tail, x.isWhitespace = true) →
    ∀ (a : List Char) (prev : Option Char),
      scan_vec_insn prev (a ++ tail) = scan_vec_insn prev a := by
  intro tail
  cases tail with
  | nil => intro _ a prev; rw [List.append_nil]
  | cons w t =>
      intro hws a prev
      obtain ⟨h1, h2, h3⟩ := ws_char_facts w (hws w (List.mem_cons_self _ _))
      rw [scan_vec_append_sep w h1 h2 h3 a t prev]
      rw [scan_vec_ws_false t (fun x hx => hws x (List.mem_cons_of_mem _ hx))
        (some w)]
      simp

/-- Scanning the newline-joined chunks is the disjunction of scanning each
chunk: no `v.*` match spans the separator. -/
theorem scan_vec_join :
    ∀ chunks : List (List Char),
      scan_vec_insn none (join_chunks chunks) =
        chunks.any (fun c => scan_vec_insn none c) := by
  intro chunks
  induction chunks with
  | nil => rfl
  | cons c cs ih =>
      cases cs with
      | nil => simp [join_chunks]
      | cons c2 cs' =>
          have hnl : ('\n' == '.') = false ∧ is_word_char '\n' = false ∧
              ('\n'.toLower == 'v') = false := ⟨by decide, by decide, by decide⟩
          simp only [join_chunks]
          rw [scan_vec_append_sep '\n' hnl.1 hnl.2.1 hnl.2.2]
          rw [scan_vec_prev_congr (some '\n') none (by decide)]
          rw [ih]
          simp [List.any_cons]

/-- The trailing-whitespace strip splits a list into its stripped prefix and
an all-whitespace suffix. -/
theorem rstrip_chars_decomp (l : List Char) :
    rstrip_chars l ++ (l.reverse.takeWhile Char.isWhitespace).reverse = l := by
  simp only [rstrip_chars]
  rw [← List.reverse_append, List.takeWhile_append_dropWhile,
    List.reverse_reverse]

/-- The stripped suffix really is whitespace. -/
theorem rstrip_suffix_ws (l : List Char) :
    ∀ x ∈ (l.reverse.takeWhile Char.isWhitespace).reverse,
      x.isWhitespace = true := by
  intro x hx
  exact List.mem_takeWhile_imp (List.mem_reverse.mp hx)

/-- Stripping trailing whitespace never changes the scan verdict. -/
theorem scan_vec_rstrip (l : List Char) :
    scan_vec_insn none (rstrip_chars l) = scan_vec_insn none l := by
  conv_rhs => rw [← rstrip_chars_decomp l]
  rw [scan_vec_ws_suffix _ (rstrip_suffix_ws l)]

/-- The vector-instruction flag of the closure text equals the union of the
per-body flags over the reachability closure. -/
theorem has_vec_insn_closure (functions : List (String × String))
    (root : String) :
    has_vec_insn (expand_btext_reachable functions root) =
      closure_union_flag has_vec_insn functions root := by
  simp only [has_vec_insn, expand_btext_reachable, closure_union_flag]
  rw [scan_vec_ws_suffix ['\n'] (by intro x hx; rcases List.mem_singleton.mp hx with rfl; decide)]
  rw [scan_vec_rstrip, scan_vec_join]
  induction expand_reachable_chunks functions root with
  | nil => rfl
  | cons p ps ih => simp [ih]

/-- Claim C2 counterexample: for a kernel whose root transfers to a function
whose body holds the memory block header, the evidence flag
`has_mem_block` is false while the closure union of the memory-header
marker is true — the header flags are not closure unions. -/
theorem claim2_counterexample :
    (compute_asm_evidence
        [("k", "b.text g"), ("g", "bstart.mseq x\nv.add y")]
        "k").has_mem_block = false ∧
    closure_union_flag has_bstart_mem
      [("k", "b.text g"), ("g", "bstart.mseq x\nv.add y")] "k" = true :=
  ⟨by decide, by decide⟩

/-- Claim C2 (amended): for every kernel whose symbol resolves in the
disassembly, the vector-instruction flag equals the union (logical OR) of
the vector marker over every function body in the kernel's reachability
closure, while the memory-header, tile-header and intra-text-transfer
flags are computed from the root function body alone. -/
theorem claim2_amended_closure_flags (functions : List (String × String))
    (kernel resolved : String)
    (h : lookup_function_name functions kernel = some resolved) :
    (compute_asm_evidence functions kernel).has_vec_insn =
      closure_union_flag has_vec_insn functions resolved ∧
    (compute_asm_evidence functions kernel).has_mem_block =
      has_bstart_mem ((functions.lookup resolved).getD "") ∧
    (compute_asm_evidence functions kernel).has_tile_block =
      has_bstart_tile ((functions.lookup resolved).getD "") ∧
    (compute_asm_evidence functions kernel).has_btext =
      !(btext_targets ((functions.lookup resolved).getD "")).isEmpty := by
  simp only [compute_asm_evidence, h]
  exact ⟨has_vec_insn_closure functions resolved, trivial, trivial, trivial⟩

/-- Claim C2 witness: kernel `k` resolves to itself; its closure is `k, g`. -/
theorem claim2_witness :
    lookup_function_name [("k", "b.text g"), ("g", "v.add y")] "k" = some "k" ∧
    ((compute_asm_evidence [("k", "b.text g"), ("g", "v.add y")]
          "k").has_vec_insn =
        closure_union_flag has_vec_insn [("k", "b.text g"), ("g", "v.add y")]
          "k" ∧
      (compute_asm_evidence [("k", "b.text g"), ("g", "v.add y")]
          "k").has_mem_block =
        has_bstart_mem ((([("k", "b.text g"), ("g", "v.add y")] :
          List (String × String)).lookup "k").getD "") ∧
      (compute_asm_evidence [("k", "b.text g"), ("g", "v.add y")]
          "k").has_tile_block =
        has_bstart_tile ((([("k", "b.text g"), ("g", "v.add y")] :
          List (String × String)).lookup "k").getD "") ∧
      (compute_asm_evidence [("k", "b.text g"), ("g", "v.add y")]
          "k").has_btext =
        !(btext_targets ((([("k", "b.text g"), ("g", "v.add y")] :
          List (String × String)).lookup "k").getD "")).isEmpty) :=
  ⟨by decide,
    claim2_amended_closure_flags [("k", "b.text g"), ("g", "v.add y")] "k" "k"
      (by decide)⟩
